import Mathlib

/-!
Verification of the rspamd metric-result aggregator
(`src/src/libmime/filter.c`) against its specification.

Shallow embedding conventions:
* C `double` values are modelled as exact rationals (`ℚ`).  A `none` in an
  `Option ℚ` models a NaN double (for insert weights it models any
  non-finite double, which the code sanitizes to `0.0` in the same way).
* The khash tables (`symbols`, `sym_groups`, option hashes) are modelled as
  association lists with lookup by key; khash keys are unique, which the
  association-list operations preserve.  Group hash keys are C pointers to
  distinct group objects; they are modelled by the group value itself.
* The config view (`task->cfg`), the settings object and the
  idempotent-phase bit of `task->processed_stages` are passed explicitly.
-/

namespace RspamdFilter

/-- A symbol group (`struct rspamd_symbols_group`): only the name and
`max_score` are read by filter.c. -/
structure Group where
  name : String
  max_score : ℚ
deriving DecidableEq

/-- A configured symbol definition (`struct rspamd_symbol`): static weight
(`*sdef->weight_ptr`), group memberships, per-symbol shot cap and the
one-parameter flag (`RSPAMD_SYMBOL_FLAG_ONEPARAM`). -/
structure SymbolDef where
  weight : ℚ
  groups : List Group
  nshots : Int
  one_param : Bool
deriving DecidableEq

/-- The configuration view consumed by filter.c: `task->cfg->symbols`,
`task->cfg->actions[i].score`, `task->cfg->grow_factor` and
`task->cfg->default_max_shots`.  An action score of `none` models NaN
("threshold absent"). -/
structure Config where
  symbols : List (String × SymbolDef)
  actions : List (Option ℚ)
  grow_factor : ℚ
  default_max_shots : Nat
deriving DecidableEq

/-- Per-symbol accumulated state (`struct rspamd_symbol_result`).
`options` models the khash option set (`none` until first created);
`opts_head` models the `DL_APPEND` display list of option strings. -/
structure SymbolResult where
  name : String
  sym : Option SymbolDef
  score : ℚ
  nshots : Nat
  options : Option (List String)
  opts_head : List String
deriving DecidableEq

/-- An override verdict (`struct rspamd_passthrough_result`); `target_score
= none` models NaN ("use accumulated score"). -/
structure PassthroughResult where
  action : Nat
  priority : Nat
  target_score : Option ℚ
  message : String
  modname : String
deriving DecidableEq

/-- The per-message aggregator state (`struct rspamd_metric_result`). -/
structure MetricResult where
  symbols : List (String × SymbolResult)
  sym_groups : List (Group × ℚ)
  passthrough_result : List PassthroughResult
  score : ℚ
  grow_factor : ℚ
  positive_score : ℚ
  negative_score : ℚ
  npositive : Nat
  nnegative : Nat
  actions_limits : List (Option ℚ)
deriving DecidableEq

/-- Flags for `rspamd_task_insert_result_full`
(`RSPAMD_SYMBOL_INSERT_SINGLE`, `RSPAMD_SYMBOL_INSERT_ENFORCE`). -/
structure InsertFlags where
  single : Bool
  enforce : Bool
deriving DecidableEq

/-- Association-list lookup (khash `kh_get`). -/
def alookup {α β : Type} [DecidableEq α] (k : α) : List (α × β) → Option β
  | [] => none
  | (a, b) :: rest => if a = k then some b else alookup k rest

/-- Association-list in-place value update (mutation through a khash value
pointer).  Entries whose key differs are untouched. -/
def aset {α β : Type} [DecidableEq α] (k : α) (v : β) : List (α × β) → List (α × β)
  | [] => []
  | (a, b) :: rest => if a = k then (a, v) :: aset k v rest else (a, b) :: aset k v rest

/-- The `DBL_EPSILON` constant of filter.c (exactly `2 ^ (-52)`). -/
def DBL_EPSILON : ℚ := 1 / 2 ^ 52

/-- First index of the action enum (`METRIC_ACTION_REJECT`), the most
severe action.  The enum itself lives in a header outside `src/`; the
spec fixes its shape: ordered from most severe down to no-action. -/
def METRIC_ACTION_REJECT : Nat := 0

/-- Index of `METRIC_ACTION_NOACTION`, the least severe action slot.
Modelled from the spec: the action enumeration is ordered from most severe
to no-action, with no-action last before `METRIC_ACTION_MAX`. -/
def METRIC_ACTION_NOACTION : Nat := 5

/-- Number of action slots (`METRIC_ACTION_MAX`). -/
def METRIC_ACTION_MAX : Nat := 6

/-- Fresh metric result built by `rspamd_create_metric_result` for a task
with a configuration attached: empty containers, zero accumulators and the
action limits copied from the configuration. -/
def rspamd_create_metric_result (cfg : Config) : MetricResult where
  symbols := []
  sym_groups := []
  passthrough_result := []
  score := 0
  grow_factor := 0
  positive_score := 0
  negative_score := 0
  npositive := 0
  nnegative := 0
  actions_limits := cfg.actions

/-- Group clamping helper `rspamd_check_group_score`.  The result `none`
models the NaN drop sentinel.  The `gr != NULL && group_score` guard is
always satisfied in the embedding (a group and a score cell are always
supplied). -/
def rspamd_check_group_score (gr : Group) (group_score : ℚ) (w : ℚ) : Option ℚ :=
  if 0 < gr.max_score ∧ 0 < w then
    if gr.max_score ≤ group_score then none
    else if gr.max_score < group_score + w then some (gr.max_score - group_score)
    else some w
  else some w

/-- Whether the one-parameter flag is set on the definition of a symbol
result (`s->sym && (s->sym->flags & RSPAMD_SYMBOL_FLAG_ONEPARAM)`). -/
def one_param_set (s : SymbolResult) : Bool :=
  match s.sym with
  | some d => d.one_param
  | none => false

/-- Body of `rspamd_task_add_result_option` for a non-NULL symbol result.
With a present option: if an option set exists, the flag is clear and the
set is below `default_max_shots`, a genuinely new option is appended to
both set and list (a duplicate is rejected with `false`); otherwise a
fresh set holding just the new option replaces the old one while the
display list keeps its nodes (`s->opts_head` is never cleared). -/
def add_result_option_c (cfg : Config) (s : SymbolResult) (val : Option String) :
    SymbolResult × Bool :=
  match val with
  | none => (s, true)
  | some v =>
    match s.options with
    | some os =>
      if one_param_set s = false ∧ os.length < cfg.default_max_shots then
        if v ∈ os then (s, false)
        else ({ s with options := some (os ++ [v]), opts_head := s.opts_head ++ [v] }, true)
      else
        ({ s with options := some [v], opts_head := s.opts_head ++ [v] }, true)
    | none =>
      ({ s with options := some [v], opts_head := s.opts_head ++ [v] }, true)

/-- `rspamd_task_add_result_option`: the only mutator of option state.  A
NULL symbol result leaves everything unchanged and succeeds only when the
option is also NULL. -/
def rspamd_task_add_result_option (cfg : Config) (s : Option SymbolResult)
    (val : Option String) : Option SymbolResult × Bool :=
  match s with
  | none => (none, val.isNone)
  | some s =>
    let r := add_result_option_c cfg s val
    (some r.1, r.2)

/-- Weight sanitization at the top of `insert_metric_result`: a non-finite
weight (modelled `none`) is replaced with `0.0`. -/
def sanitizeWeight (w : Option ℚ) : ℚ := w.getD 0

/-- Group list of the configured definition of a symbol (empty when the
symbol is unknown). -/
def symbolGroups (cfg : Config) (symbol : String) : List Group :=
  match alookup symbol cfg.symbols with
  | none => []
  | some d => d.groups

/-- Creation of missing `sym_groups` entries (initialized to `0`) for every
group of the resolved definition, as done while computing the base score. -/
def ensureGroups : List (Group × ℚ) → List Group → List (Group × ℚ)
  | sg, [] => sg
  | sg, gr :: rest => ensureGroups (if (alookup gr sg).isSome then sg else sg ++ [(gr, 0)]) rest

/-- Base score of an insertion before the settings override: product of the
static weight and the dynamic weight, with the unknown-symbol rules for the
`ENFORCE` flag. -/
def baseScore (cfg : Config) (symbol : String) (w : ℚ) (enforce : Bool) : ℚ :=
  match alookup symbol cfg.symbols with
  | none => if enforce then 1 * w else 0
  | some d => d.weight * w

/-- Numeric per-symbol correction from the per-task settings object. -/
def settingsCorr (settings : Option (List (String × ℚ))) (symbol : String) : Option ℚ :=
  match settings with
  | none => none
  | some m => alookup symbol m

/-- The `final_score` of an insertion: the base score, replaced by
`corr * weight` when the settings object carries a correction. -/
def effectiveScore (cfg : Config) (settings : Option (List (String × ℚ)))
    (symbol : String) (w : ℚ) (enforce : Bool) : ℚ :=
  match settingsCorr settings symbol with
  | some corr => corr * w
  | none => baseScore cfg symbol w enforce

/-- Grow-factor step shared by both insertion branches: on a positive
contribution `x` with a non-zero stored factor, amplify `x` and escalate
the next factor; on a positive contribution otherwise seed the next factor
from the configuration; on a non-positive contribution keep `x` and leave
the local `next_gf` at its default `1.0`. -/
def growFactorApply (gf cfg_gf x : ℚ) : ℚ × ℚ :=
  if gf ≠ 0 ∧ 0 < x then (x * gf, 1 * cfg_gf)
  else if 0 < x then (x, cfg_gf)
  else (x, 1)

/-- Group-cap loop over the definition groups: clamp the running `diff`
against each group, add the per-group clamped value to that group score,
and reduce `diff` to the most restrictive clamp.  A `none` result models
the NaN drop sentinel (the loop breaks, keeping the updates already made
to earlier groups). -/
def applyGroupScores : List Group → List (Group × ℚ) → ℚ → List (Group × ℚ) × Option ℚ
  | [], sg, w => (sg, some w)
  | gr :: rest, sg, w =>
    let gsc := (alookup gr sg).getD 0
    match rspamd_check_group_score gr gsc w with
    | none => (sg, none)
    | some cd => applyGroupScores rest (aset gr (gsc + cd) sg) (if cd < w then cd else w)

/-- Group-cap loop lifted over an optional definition (no definition means
no groups, hence no clamping). -/
def applyGroupScoresOpt (sdef : Option SymbolDef) (w : ℚ) (sg : List (Group × ℚ)) :
    List (Group × ℚ) × Option ℚ :=
  match sdef with
  | none => (sg, some w)
  | some d => applyGroupScores d.groups sg w

/-- Effective shot cap of a repeat hit: `1` under the `SINGLE` flag, the
per-symbol cap when a definition exists, the global default otherwise. -/
def repeatMaxShots (cfg : Config) (sdef : Option SymbolDef) (sflag : Bool) : Int :=
  if sflag then 1
  else
    match sdef with
    | some d => d.nshots
    | none => (cfg.default_max_shots : Int)

/-- Promotion of a repeat hit to single-shot semantics once a positive shot
cap has been reached. -/
def repeatSingle (cfg : Config) (sdef : Option SymbolDef) (sflag : Bool)
    (s : SymbolResult) : Bool :=
  sflag || (decide (0 < repeatMaxShots cfg sdef sflag) &&
    decide (repeatMaxShots cfg sdef sflag ≤ (s.nshots : Int)))

/-- Duplicate-option and shot-count handling of the repeat-hit branch: a
present option that is already in an existing set only bumps `nshots`; a
present new option is handed to `rspamd_task_add_result_option` without a
bump; otherwise `nshots` is bumped and the (possibly NULL) option handed
over. -/
def optionStep (cfg : Config) (s : SymbolResult) (opt : Option String) : SymbolResult :=
  match opt, s.options with
  | some o, some os =>
    if o ∈ os then { s with nshots := s.nshots + 1 }
    else (add_result_option_c cfg s (some o)).1
  | _, _ => (add_result_option_c cfg { s with nshots := s.nshots + 1 } opt).1

/-- Score delta of a repeat hit: the full `final_score` when not
single-shot; under single-shot semantics, the replacement delta when the
new score is strictly more significant with the same sign, else `0`.  The
C `signbit` comparison is modelled by comparing strict negativity (exact
rationals have no negative zero). -/
def repeatDiff (single : Bool) (sscore fs : ℚ) : ℚ :=
  if single then
    if |sscore| < |fs| ∧ ((sscore < 0) ↔ (fs < 0)) then fs - sscore else 0
  else fs

/-- Repeat-hit branch of `insert_metric_result` (symbol already present):
shot-cap promotion, option handling, diff adjustment, grow factor, group
clamping, and the gated write-back of score, grow factor and symbol
score. -/
def insertRepeat (cfg : Config) (mres : MetricResult) (sdef : Option SymbolDef)
    (symbol : String) (fs : ℚ) (opt : Option String) (sflag : Bool)
    (s : SymbolResult) : MetricResult × SymbolResult :=
  let single := repeatSingle cfg sdef sflag s
  let s1 := optionStep cfg s opt
  let diff0 := repeatDiff single s1.score fs
  if diff0 = 0 then
    ({ mres with symbols := aset symbol s1 mres.symbols }, s1)
  else
    let gfr := growFactorApply mres.grow_factor cfg.grow_factor diff0
    let gres := applyGroupScoresOpt sdef gfr.1 mres.sym_groups
    match gres.2 with
    | none =>
      ({ mres with sym_groups := gres.1, symbols := aset symbol s1 mres.symbols }, s1)
    | some diff2 =>
      let s2 := if single then { s1 with score := fs } else { s1 with score := s1.score + diff2 }
      ({ mres with
          sym_groups := gres.1
          score := mres.score + diff2
          grow_factor := gfr.2
          symbols := aset symbol s2 mres.symbols }, s2)

/-- Positive/negative ledger update of the first-hit branch, with
`DBL_EPSILON` as the zero threshold. -/
def firstLedger (mres : MetricResult) (fs : ℚ) : MetricResult :=
  if DBL_EPSILON < fs then
    { mres with npositive := mres.npositive + 1, positive_score := mres.positive_score + fs }
  else if fs < -DBL_EPSILON then
    { mres with nnegative := mres.nnegative + 1, negative_score := mres.negative_score + |fs| }
  else mres

/-- First-hit branch of `insert_metric_result` (symbol absent): a fresh
entry with one shot, grow factor and group clamping applied to
`final_score`; a clamped-to-NaN contribution keeps the entry with score
`0`; otherwise score, grow factor and ledgers are updated; finally the
option is handed to `rspamd_task_add_result_option`. -/
def insertFirst (cfg : Config) (mres : MetricResult) (sdef : Option SymbolDef)
    (symbol : String) (fs : ℚ) (opt : Option String) : MetricResult × SymbolResult :=
  let gfr := growFactorApply mres.grow_factor cfg.grow_factor fs
  let s0 : SymbolResult :=
    { name := symbol, sym := sdef, score := 0, nshots := 1, options := none, opts_head := [] }
  let gres := applyGroupScoresOpt sdef gfr.1 mres.sym_groups
  match gres.2 with
  | none =>
    let s1 := (add_result_option_c cfg s0 opt).1
    ({ mres with sym_groups := gres.1, symbols := mres.symbols ++ [(symbol, s1)] }, s1)
  | some fs2 =>
    let m1 := firstLedger
      { mres with sym_groups := gres.1, score := mres.score + fs2, grow_factor := gfr.2 } fs2
    let s1 := (add_result_option_c cfg { s0 with score := fs2 } opt).1
    ({ m1 with symbols := mres.symbols ++ [(symbol, s1)] }, s1)

/-- `insert_metric_result`: sanitize the weight, resolve the definition and
ensure its group entries, compute the effective score, then dispatch on
whether the symbol is already present. -/
def insert_metric_result (cfg : Config) (settings : Option (List (String × ℚ)))
    (mres : MetricResult) (symbol : String) (weight : Option ℚ) (opt : Option String)
    (fl : InsertFlags) : MetricResult × SymbolResult :=
  let w := sanitizeWeight weight
  let sdef := alookup symbol cfg.symbols
  let m1 : MetricResult :=
    { mres with sym_groups := ensureGroups mres.sym_groups (symbolGroups cfg symbol) }
  let fs := effectiveScore cfg settings symbol w fl.enforce
  match alookup symbol m1.symbols with
  | some s => insertRepeat cfg m1 sdef symbol fs opt fl.single s
  | none => insertFirst cfg m1 sdef symbol fs opt

/-- `rspamd_task_insert_result_full`: the phase guard.  With the
idempotent-phase bit set the insert is dropped and absence returned;
otherwise the insertion runs (the frequency-cache bump is external). -/
def rspamd_task_insert_result_full (cfg : Config) (settings : Option (List (String × ℚ)))
    (idempotent : Bool) (mres : MetricResult) (symbol : String) (weight : Option ℚ)
    (opt : Option String) (fl : InsertFlags) : MetricResult × Option SymbolResult :=
  if idempotent then (mres, none)
  else
    let r := insert_metric_result cfg settings mres symbol weight opt fl
    (r.1, some r.2)

/-- `rspamd_task_find_symbol_result`: lookup by exact name. -/
def rspamd_task_find_symbol_result (mres : MetricResult) (sym : String) : Option SymbolResult :=
  alookup sym mres.symbols

/-- One phase-valid insert call of a sequence. -/
structure InsertCall where
  symbol : String
  weight : Option ℚ
  opt : Option String
  flags : InsertFlags
deriving DecidableEq

/-- Fold of a sequence of phase-valid insert calls over a metric result. -/
def runInserts (cfg : Config) (settings : Option (List (String × ℚ))) :
    MetricResult → List InsertCall → MetricResult
  | m, [] => m
  | m, c :: rest =>
    runInserts cfg settings
      (rspamd_task_insert_result_full cfg settings false m c.symbol c.weight c.opt c.flags).1 rest

/-- Selection loop of `rspamd_check_action_metric` over the action limits,
walking indices upward from `METRIC_ACTION_REJECT`.  The accumulator pairs
`selected_action` with its threshold; `none` models the initial state
(`selected_action == NULL`, `max_score == -G_MAXDOUBLE`, a sentinel below
every configured threshold).  A NaN limit (`none`) is skipped; a slot is
taken over the accumulator only when the score reaches it and it strictly
exceeds the accumulated threshold (`scImproves` is the `sc > max_score`
test). -/
def scImproves (acc : Option (Nat × ℚ)) (sc : ℚ) : Bool :=
  match acc with
  | none => true
  | some p => decide (p.2 < sc)

/-- Selection walk itself; see the comment above `scImproves`. -/
def select_loop (score : ℚ) : List (Option ℚ) → Nat → Option (Nat × ℚ) → Option (Nat × ℚ)
  | [], _, acc => acc
  | none :: rest, i, acc => select_loop score rest (i + 1) acc
  | some sc :: rest, i, acc =>
    if (decide (sc ≤ score) && scImproves acc sc) = true then
      select_loop score rest (i + 1) (some (i, sc))
    else select_loop score rest (i + 1) acc

/-- `rspamd_check_action_metric`: with no passthrough, run the selection
loop (the `set_action` fallback of the C code is dead, so a `NULL`
selection returns `METRIC_ACTION_NOACTION`); with a passthrough, take the
head, return its action and rewrite the score from a finite target score
(`MIN` with the accumulated score for no-action, replacement otherwise). -/
def rspamd_check_action_metric (mres : MetricResult) : Nat × MetricResult :=
  match mres.passthrough_result with
  | [] =>
    match select_loop mres.score mres.actions_limits 0 none with
    | some p => (p.1, mres)
    | none => (METRIC_ACTION_NOACTION, mres)
  | pr :: _ =>
    match pr.target_score with
    | none => (pr.action, mres)
    | some sc =>
      (pr.action,
        { mres with score := if pr.action = METRIC_ACTION_NOACTION then min sc mres.score else sc })

/-- Total shot count over the symbols map. -/
def sumNshots (mres : MetricResult) : Nat :=
  (mres.symbols.map (fun p => p.2.nshots)).sum

/-! Concrete configurations and states used by counterexamples and
witnesses. -/

/-- A configuration with one symbol `B` of static weight `2`, per-symbol
cap `10`, no groups (the literal setting of spec scenario 3). -/
def cfgB : Config where
  symbols := [("B", { weight := 2, groups := [], nshots := 10, one_param := false })]
  actions := [some 10, none, none, some 5, none, none]
  grow_factor := 1
  default_max_shots := 5

/-- A phase-valid insert of symbol `B` with weight `1` and an option. -/
def callB (o : String) : InsertCall where
  symbol := "B"
  weight := some 1
  opt := some o
  flags := { single := false, enforce := false }

/-- Group `g` with `max_score = 7`. -/
def gC : Group where
  name := "g"
  max_score := 7

/-- A configuration with one symbol `C` of static weight `5` in group `g`
(the literal setting of spec scenario 4). -/
def cfgC : Config where
  symbols := [("C", { weight := 5, groups := [gC], nshots := 100, one_param := false })]
  actions := [some 10, none, none, some 5, none, none]
  grow_factor := 1
  default_max_shots := 5

/-- A phase-valid insert of symbol `C` with weight `1`, no option. -/
def callC : InsertCall where
  symbol := "C"
  weight := some 1
  opt := none
  flags := { single := false, enforce := false }

/-- A configuration with `grow_factor = 2`, a positive symbol `A` and a
negative symbol `D`. -/
def cfgD : Config where
  symbols := [("A", { weight := 1, groups := [], nshots := 100, one_param := false }),
              ("D", { weight := -1, groups := [], nshots := 100, one_param := false })]
  actions := [some 10, none, none, some 5, none, none]
  grow_factor := 2
  default_max_shots := 5

/-- A phase-valid insert of the positive symbol `A`. -/
def callA : InsertCall where
  symbol := "A"
  weight := some 1
  opt := none
  flags := { single := false, enforce := false }

/-- A phase-valid insert of the negative symbol `D`. -/
def callD : InsertCall where
  symbol := "D"
  weight := some 1
  opt := none
  flags := { single := false, enforce := false }

/-- An empty configuration whose `default_max_shots` is `5`. -/
def cfg0 : Config where
  symbols := []
  actions := []
  grow_factor := 1
  default_max_shots := 5

/-- An empty configuration whose `default_max_shots` is `1` (minimal
option-set capacity). -/
def cfgShots1 : Config where
  symbols := []
  actions := []
  grow_factor := 1
  default_max_shots := 1

/-- A symbol result whose definition carries the one-parameter flag and
which already holds the option set `{"x"}`. -/
def s4 : SymbolResult where
  name := "S"
  sym := some { weight := 1, groups := [], nshots := 10, one_param := true }
  score := 0
  nshots := 1
  options := some ["x"]
  opts_head := ["x"]

/-- A fresh symbol result with no options. -/
def s5 : SymbolResult where
  name := "S"
  sym := none
  score := 0
  nshots := 1
  options := none
  opts_head := []

/-- A configuration whose action limits tie at threshold `5` on the two
most severe slots. -/
def cfgTie : Config where
  symbols := []
  actions := [some 5, some 5, none, none, none, none]
  grow_factor := 1
  default_max_shots := 5

/-- A metric result with accumulated score `6`, no passthrough and tied
action limits. -/
def mresTie : MetricResult :=
  { rspamd_create_metric_result cfgTie with score := 6 }

/-- A no-action passthrough with priority `20` and finite target score `1`. -/
def pr7 : PassthroughResult where
  action := 5
  priority := 20
  target_score := some 1
  message := "m"
  modname := "mod"

/-- A metric result with accumulated score `2` and the passthrough `pr7`
at the head. -/
def mres7 : MetricResult :=
  { rspamd_create_metric_result cfgB with score := 2, passthrough_result := [pr7] }

/-! Theorems settling the claims. -/

/-- Helper fact for evaluations: the strings `"y"` and `"x"` differ. -/
theorem ne_y_x : ¬ ("y" : String) = "x" := by decide

/-- Helper fact for evaluations: the strings `"A"` and `"D"` differ. -/
theorem ne_A_D : ¬ ("A" : String) = "D" := by decide

/-- C6: with the idempotent-phase bit of the task set, every insert call
returns absence and leaves the whole metric result (score, symbols map,
group scores, grow factor and the positive/negative ledgers) unchanged. -/
theorem C6_idempotent_insert_noop (cfg : Config) (settings : Option (List (String × ℚ)))
    (mres : MetricResult) (symbol : String) (weight : Option ℚ) (opt : Option String)
    (fl : InsertFlags) :
    rspamd_task_insert_result_full cfg settings true mres symbol weight opt fl = (mres, none) :=
  rfl

/-- C7: with a non-empty passthrough list, `rspamd_check_action_metric`
returns the action of the head passthrough; a finite target score rewrites
the accumulated score to `min target score` for a no-action head and to
`target` otherwise, while a NaN target leaves the score (and the rest of
the state) unchanged. -/
theorem C7_passthrough_head (mres : MetricResult) (pr : PassthroughResult)
    (rest : List PassthroughResult) (h : mres.passthrough_result = pr :: rest) :
    (rspamd_check_action_metric mres).1 = pr.action ∧
    (rspamd_check_action_metric mres).2 =
      { mres with score :=
          match pr.target_score with
          | none => mres.score
          | some sc => if pr.action = METRIC_ACTION_NOACTION then min sc mres.score else sc } := by
  obtain ⟨sy, sg, pt, sc, gf, ps, ns, np, nn, al⟩ := mres
  simp only at h
  subst h
  cases hts : pr.target_score <;>
    simp [rspamd_check_action_metric, hts]

/-- C7 witness: the head passthrough `pr7` (no-action, finite target `1`)
on accumulated score `2` yields action `5` and score `min 1 2`. -/
theorem C7_passthrough_head_witness :
    (rspamd_check_action_metric mres7).1 = pr7.action ∧
    (rspamd_check_action_metric mres7).2 =
      { mres7 with score :=
          match pr7.target_score with
          | none => mres7.score
          | some sc => if pr7.action = METRIC_ACTION_NOACTION then min sc mres7.score else sc } :=
  C7_passthrough_head mres7 pr7 [] rfl

/-- C4 counterexample: on the one-parameter symbol result `s4`, which
already has an option set, adding the fresh option `"y"` is NOT a
failing no-op: the call returns success and changes the state (the option
set is replaced by `{"y"}`). -/
theorem C4_oneparam_counterexample :
    (rspamd_task_add_result_option cfg0 (some s4) (some "y")).2 = true ∧
    (rspamd_task_add_result_option cfg0 (some s4) (some "y")).1 ≠ some s4 := by
  constructor
  · rfl
  · simp [rspamd_task_add_result_option, add_result_option_c, s4, one_param_set, cfg0, ne_y_x]

/-- C4 amended: on a symbol result whose definition has the one-parameter
flag set and which already has an option set, a further call with a
present option REPLACES the option set with a singleton holding the new
option, appends the option to the display list, and returns success. -/
theorem C4_oneparam_reset (cfg : Config) (s : SymbolResult) (v : String)
    (h1 : one_param_set s = true) (os : List String) (h2 : s.options = some os) :
    rspamd_task_add_result_option cfg (some s) (some v) =
      (some { s with options := some [v], opts_head := s.opts_head ++ [v] }, true) := by
  simp [rspamd_task_add_result_option, add_result_option_c, h2, h1]

/-- C4 amended witness: the reset behavior at the concrete one-parameter
result `s4` and option `"y"`. -/
theorem C4_oneparam_reset_witness :
    one_param_set s4 = true ∧
    rspamd_task_add_result_option cfg0 (some s4) (some "y") =
      (some { s4 with options := some ["y"], opts_head := s4.opts_head ++ ["y"] }, true) :=
  ⟨rfl, C4_oneparam_reset cfg0 s4 "y" rfl ["x"] rfl⟩

/-- C1 (code bug): evaluation at the failing input.  Two phase-valid
inserts of symbol `B` (existing option set, second insert carries the new
option `"y"`) leave the total shot count at `1`, not `2`: the repeat-hit
path that merely appends a new option never increments `nshots`,
contradicting P1, the `nshots` data-model description and spec scenario 3
(which expects `nshots = 3` after three such inserts). -/
theorem C1_nshots_failing_eval :
    sumNshots (runInserts cfgB none (rspamd_create_metric_result cfgB)
      [callB "x", callB "y"]) = 1 ∧
    [callB "x", callB "y"].length = 2 := by
  constructor
  · norm_num [runInserts, rspamd_task_insert_result_full, insert_metric_result,
      rspamd_create_metric_result, cfgB, callB, sanitizeWeight, symbolGroups, ensureGroups,
      baseScore, settingsCorr, effectiveScore, growFactorApply, applyGroupScores,
      applyGroupScoresOpt, repeatMaxShots, repeatSingle, optionStep, repeatDiff,
      insertRepeat, insertFirst, firstLedger, add_result_option_c, one_param_set,
      alookup, aset, sumNshots, DBL_EPSILON, ne_y_x]
  · rfl

/-- C5 counterexample: with `default_max_shots = 1`, two `add_option`
calls with the same option `"x"` on a fresh symbol result leave a display
list `["x", "x"]` with a duplicate, while the lookup set is `{"x"}` of
cardinality `1`: the full-set path replaces the set but keeps the old
display nodes. -/
theorem C5_dup_counterexample :
    (rspamd_task_add_result_option cfgShots1
        (rspamd_task_add_result_option cfgShots1 (some s5) (some "x")).1 (some "x")).1 =
      some { name := "S", sym := none, score := 0, nshots := 1,
             options := some ["x"], opts_head := ["x", "x"] } ∧
    ¬ ([("x" : String), "x"].Nodup) ∧
    ([("x" : String), "x"]).length ≠ ([("x" : String)]).length := by
  refine ⟨?_, by decide, by decide⟩
  simp [rspamd_task_add_result_option, add_result_option_c, s5, one_param_set, cfgShots1]

/-- C8 counterexample: an insert whose applied contribution is negative
DOES overwrite `grow_factor`.  With `cfg.grow_factor = 2`, inserting the
positive symbol `A` stores grow factor `2`; the following insert of the
negative symbol `D` (final score `-1`, no group clamping) resets the
stored grow factor to `1`. -/
theorem C8_negative_reset_counterexample :
    (runInserts cfgD none (rspamd_create_metric_result cfgD) [callA]).grow_factor = 2 ∧
    (runInserts cfgD none (rspamd_create_metric_result cfgD) [callA, callD]).grow_factor = 1 ∧
    (2 : ℚ) ≠ 1 := by
  refine ⟨?_, ?_, by norm_num⟩ <;>
    norm_num [runInserts, rspamd_task_insert_result_full, insert_metric_result,
      rspamd_create_metric_result, cfgD, callA, callD, sanitizeWeight, symbolGroups,
      ensureGroups, baseScore, settingsCorr, effectiveScore, growFactorApply,
      applyGroupScores, applyGroupScoresOpt, repeatMaxShots, repeatSingle, optionStep,
      repeatDiff, insertRepeat, insertFirst, firstLedger, add_result_option_c,
      one_param_set, alookup, aset, DBL_EPSILON, ne_A_D]

/-- C3 counterexample: with the empty passthrough list, accumulated score
`6` and action limits tying at threshold `5` on slots `0` and `1`, the
code selects slot `0` — the FIRST qualifying slot encountered at the
maximal threshold — whereas the claim demands the last encountered
(slot `1`). -/
theorem C3_tie_counterexample :
    (rspamd_check_action_metric mresTie).1 = 0 ∧
    mresTie.passthrough_result = [] ∧
    mresTie.actions_limits.get? 0 = some (some 5) ∧
    mresTie.actions_limits.get? 1 = some (some 5) ∧
    (5 : ℚ) ≤ mresTie.score ∧
    (0 : Nat) ≠ 1 := by
  refine ⟨?_, rfl, rfl, rfl, by norm_num [mresTie, rspamd_create_metric_result, cfgTie],
    by decide⟩
  norm_num [rspamd_check_action_metric, mresTie, rspamd_create_metric_result, cfgTie,
    select_loop, scImproves, METRIC_ACTION_NOACTION]

/-- Helper fact: `scImproves` of the initial NULL accumulator accepts any
threshold. -/
theorem scImproves_none (sc : ℚ) : scImproves none sc = true := rfl

/-- Helper fact: `scImproves` of a stored accumulator is the strict
threshold comparison. -/
theorem scImproves_some (k : Nat) (t sc : ℚ) : scImproves (some (k, t)) sc = decide (t < sc) := rfl

/-- Characterization of the selection loop: (1) a stored accumulator is
only ever replaced by a strictly larger threshold; (2) the result is the
untouched accumulator or a qualifying slot; (3) every qualifying slot is
dominated by the result, the earliest index winning ties. -/
theorem select_loop_spec (score : ℚ) (l : List (Option ℚ)) :
    ∀ (i : Nat) (acc : Option (Nat × ℚ)),
      (∀ k t, acc = some (k, t) → k < i) →
      ((∀ k0 t0, acc = some (k0, t0) →
          ∃ k tk, select_loop score l i acc = some (k, tk) ∧
            (t0 < tk ∨ (k = k0 ∧ tk = t0))) ∧
       (select_loop score l i acc = acc ∨
          ∃ j t, l.get? j = some (some t) ∧ t ≤ score ∧
            select_loop score l i acc = some (i + j, t)) ∧
       (∀ j t, l.get? j = some (some t) → t ≤ score →
          ∃ k tk, select_loop score l i acc = some (k, tk) ∧
            (t < tk ∨ (t = tk ∧ k ≤ i + j)))) := by
  induction l with
  | nil =>
    intro i acc hacc
    refine ⟨?_, Or.inl rfl, ?_⟩
    · intro k0 t0 h0
      exact ⟨k0, t0, h0, Or.inr ⟨rfl, rfl⟩⟩
    · intro j t hj
      simp at hj
  | cons hd rest ih =>
    intro i acc hacc
    cases hd with
    | none =>
      have hstep : select_loop score (none :: rest) i acc = select_loop score rest (i + 1) acc := by
        simp only [select_loop]
      have hacc1 : ∀ k t, acc = some (k, t) → k < i + 1 := fun k t h =>
        Nat.lt_succ_of_lt (hacc k t h)
      obtain ⟨hC, hA, hB⟩ := ih (i + 1) acc hacc1
      refine ⟨?_, ?_, ?_⟩
      · intro k0 t0 h0
        rw [hstep]
        exact hC k0 t0 h0
      · rw [hstep]
        rcases hA with h | ⟨j, t, hj, hts, hres⟩
        · exact Or.inl h
        · refine Or.inr ⟨j + 1, t, by simpa using hj, hts, ?_⟩
          rw [hres]
          congr 2
          omega
      · intro j t hj hts
        rw [hstep]
        cases j with
        | zero => simp at hj
        | succ j =>
          simp only [List.get?] at hj
          obtain ⟨k, tk, hres, hdom⟩ := hB j t hj hts
          refine ⟨k, tk, hres, ?_⟩
          rcases hdom with h | ⟨h1, h2⟩
          · exact Or.inl h
          · exact Or.inr ⟨h1, by omega⟩
    | some sc =>
      by_cases hcond : (decide (sc ≤ score) && scImproves acc sc) = true
      · have hstep : select_loop score (some sc :: rest) i acc =
            select_loop score rest (i + 1) (some (i, sc)) := by
          simp only [select_loop]
          rw [if_pos hcond]
        have hsc : sc ≤ score := of_decide_eq_true ((Bool.and_eq_true _ _).mp hcond).1
        have hacc1 : ∀ k t, (some (i, sc) : Option (Nat × ℚ)) = some (k, t) → k < i + 1 := by
          intro k t h
          cases h
          exact Nat.lt_succ_self i
        obtain ⟨hC, hA, hB⟩ := ih (i + 1) (some (i, sc)) hacc1
        refine ⟨?_, ?_, ?_⟩
        · intro k0 t0 h0
          have himp : scImproves acc sc = true := ((Bool.and_eq_true _ _).mp hcond).2
          rw [h0, scImproves_some] at himp
          have ht0 : t0 < sc := of_decide_eq_true himp
          obtain ⟨k, tk, hres, hdom⟩ := hC i sc rfl
          rw [hstep]
          refine ⟨k, tk, hres, Or.inl ?_⟩
          rcases hdom with h | ⟨h1, h2⟩
          · exact lt_trans ht0 h
          · rw [h2]
            exact ht0
        · rw [hstep]
          rcases hA with h | ⟨j, t, hj, hts, hres⟩
          · refine Or.inr ⟨0, sc, rfl, hsc, ?_⟩
            rw [Nat.add_zero]
            exact h
          · refine Or.inr ⟨j + 1, t, by simpa using hj, hts, ?_⟩
            rw [hres]
            congr 2
            omega
        · intro j t hj hts
          rw [hstep]
          cases j with
          | zero =>
            have ht : t = sc := by
              simp only [List.get?] at hj
              injection hj with hj1
              injection hj1 with hj2
              exact hj2.symm
            rw [ht]
            obtain ⟨k, tk, hres, hdom⟩ := hC i sc rfl
            refine ⟨k, tk, hres, ?_⟩
            rcases hdom with h | ⟨h1, h2⟩
            · exact Or.inl h
            · exact Or.inr ⟨h2.symm, by omega⟩
          | succ j =>
            simp only [List.get?] at hj
            obtain ⟨k, tk, hres, hdom⟩ := hB j t hj hts
            refine ⟨k, tk, hres, ?_⟩
            rcases hdom with h | ⟨h1, h2⟩
            · exact Or.inl h
            · exact Or.inr ⟨h1, by omega⟩
      · have hstep : select_loop score (some sc :: rest) i acc =
            select_loop score rest (i + 1) acc := by
          simp only [select_loop]
          rw [if_neg hcond]
        have hacc1 : ∀ k t, acc = some (k, t) → k < i + 1 := fun k t h =>
          Nat.lt_succ_of_lt (hacc k t h)
        obtain ⟨hC, hA, hB⟩ := ih (i + 1) acc hacc1
        refine ⟨?_, ?_, ?_⟩
        · intro k0 t0 h0
          rw [hstep]
          exact hC k0 t0 h0
        · rw [hstep]
          rcases hA with h | ⟨j, t, hj, hts, hres⟩
          · exact Or.inl h
          · refine Or.inr ⟨j + 1, t, by simpa using hj, hts, ?_⟩
            rw [hres]
            congr 2
            omega
        · intro j t hj hts
          rw [hstep]
          cases j with
          | zero =>
            have ht : t = sc := by
              simp only [List.get?] at hj
              injection hj with hj1
              injection hj1 with hj2
              exact hj2.symm
            rw [ht]
            have himp : scImproves acc sc = false := by
              cases hb : scImproves acc sc with
              | true =>
                exfalso
                apply hcond
                rw [Bool.and_eq_true]
                refine ⟨decide_eq_true ?_, hb⟩
                rw [ht] at hts
                exact hts
              | false => rfl
            obtain ⟨k0, t0, hacc2, hle⟩ : ∃ k0 t0, acc = some (k0, t0) ∧ sc ≤ t0 := by
              cases acc with
              | none =>
                rw [scImproves_none] at himp
                simp at himp
              | some p =>
                obtain ⟨k0, t0⟩ := p
                rw [scImproves_some] at himp
                exact ⟨k0, t0, rfl, le_of_not_lt (of_decide_eq_false himp)⟩
            obtain ⟨k, tk, hres, hdom⟩ := hC k0 t0 hacc2
            refine ⟨k, tk, hres, ?_⟩
            rcases hdom with h | ⟨h1, h2⟩
            · exact Or.inl (lt_of_le_of_lt hle h)
            · rcases lt_or_eq_of_le hle with h3 | h3
              · rw [h2]
                exact Or.inl h3
              · refine Or.inr ⟨h3.trans h2.symm, ?_⟩
                have hk0 : k0 < i := hacc k0 t0 hacc2
                omega
          | succ j =>
            simp only [List.get?] at hj
            obtain ⟨k, tk, hres, hdom⟩ := hB j t hj hts
            refine ⟨k, tk, hres, ?_⟩
            rcases hdom with h | ⟨h1, h2⟩
            · exact Or.inl h
            · exact Or.inr ⟨h1, by omega⟩

/-- C3 amended: with an empty passthrough list the action selector
considers only slots with a non-NaN threshold; a slot qualifies iff the
accumulated score reaches its threshold; the qualifying slot with the
largest threshold is selected, and if none qualify the result is
no-action.  Amended tie rule: on equal thresholds the FIRST slot
encountered in iteration order wins (the C comparison `sc > max_score` is
strict), not the last as claimed. -/
theorem C3_empty_selection (mres : MetricResult)
    (h : mres.passthrough_result = []) :
    ((∀ j t, mres.actions_limits.get? j = some (some t) → ¬ t ≤ mres.score) →
       (rspamd_check_action_metric mres).1 = METRIC_ACTION_NOACTION) ∧
    (∀ j t, mres.actions_limits.get? j = some (some t) → t ≤ mres.score →
       ∃ k tk, mres.actions_limits.get? k = some (some tk) ∧ tk ≤ mres.score ∧
         (rspamd_check_action_metric mres).1 = k ∧
         (t < tk ∨ (t = tk ∧ k ≤ j))) := by
  obtain ⟨hC, hA, hB⟩ :=
    select_loop_spec mres.score mres.actions_limits 0 none (by intro k t h0; cases h0)
  have heq : rspamd_check_action_metric mres =
      (match select_loop mres.score mres.actions_limits 0 none with
       | some p => (p.1, mres)
       | none => (METRIC_ACTION_NOACTION, mres)) := by
    unfold rspamd_check_action_metric
    rw [h]
  constructor
  · intro hnone
    cases hsel : select_loop mres.score mres.actions_limits 0 none with
    | none =>
      rw [heq, hsel]
    | some p =>
      exfalso
      rcases hA with h0 | ⟨j, t, hj, hts, hres⟩
      · rw [h0] at hsel
        cases hsel
      · exact hnone j t hj hts
  · intro j t hj hts
    obtain ⟨k, tk, hres, hdom⟩ := hB j t hj hts
    rcases hA with h0 | ⟨j', t', hj', hts', hres'⟩
    · rw [h0] at hres
      cases hres
    · have hkt : (0 + j', t') = (k, tk) := by
        have := hres'.symm.trans hres
        injection this
      have hk : k = j' := by
        have := congrArg Prod.fst hkt
        simpa using this.symm
      have ht' : tk = t' := by
        have := congrArg Prod.snd hkt
        exact this.symm
      rw [Nat.zero_add] at hdom
      refine ⟨k, tk, ?_, ?_, ?_, hdom⟩
      · rw [hk, ht']
        exact hj'
      · rw [ht']
        exact hts'
      · rw [heq, hres]

/-- C3 witness: on the concrete tied state `mresTie`, slot `1` qualifies
with threshold `5`, and the selector picks a qualifying slot of maximal
threshold at index at most `1`. -/
theorem C3_empty_selection_witness :
    ∃ k tk, mresTie.actions_limits.get? k = some (some tk) ∧ tk ≤ mresTie.score ∧
      (rspamd_check_action_metric mresTie).1 = k ∧
      ((5 : ℚ) < tk ∨ ((5 : ℚ) = tk ∧ k ≤ 1)) :=
  (C3_empty_selection mresTie rfl).2 1 5 rfl
    (by norm_num [mresTie, rspamd_create_metric_result, cfgTie])

/-- Helper: `alookup` hits are members of the association list. -/
theorem alookup_mem {α β : Type} [DecidableEq α] (k : α) (l : List (α × β)) (b : β)
    (h : alookup k l = some b) : (k, b) ∈ l := by
  induction l with
  | nil => simp [alookup] at h
  | cons p rest ih =>
    obtain ⟨a, c⟩ := p
    by_cases hak : a = k
    · subst hak
      rw [alookup, if_pos rfl] at h
      injection h with h1
      subst h1
      exact List.mem_cons_self _ _
    · rw [alookup, if_neg hak] at h
      exact List.mem_cons_of_mem _ (ih h)

/-- Helper: every entry of `aset k v l` is an entry of `l` or is `(k, v)`. -/
theorem mem_aset {α β : Type} [DecidableEq α] (k : α) (v : β) (l : List (α × β))
    (p : α × β) (h : p ∈ aset k v l) : p ∈ l ∨ p = (k, v) := by
  induction l with
  | nil => simp [aset] at h
  | cons q rest ih =>
    obtain ⟨a, c⟩ := q
    by_cases hak : a = k
    · subst hak
      rw [aset, if_pos rfl] at h
      rcases List.mem_cons.mp h with h1 | h1
      · exact Or.inr h1
      · rcases ih h1 with h2 | h2
        · exact Or.inl (List.mem_cons_of_mem _ h2)
        · exact Or.inr h2
    · rw [aset, if_neg hak] at h
      rcases List.mem_cons.mp h with h1 | h1
      · exact Or.inl (h1 ▸ List.mem_cons_self _ _)
      · rcases ih h1 with h2 | h2
        · exact Or.inl (List.mem_cons_of_mem _ h2)
        · exact Or.inr h2

/-- Helper: updating a present key makes `alookup` return the new value. -/
theorem alookup_aset_self {α β : Type} [DecidableEq α] (k : α) (v : β) (l : List (α × β))
    (b : β) (h : alookup k l = some b) : alookup k (aset k v l) = some v := by
  induction l with
  | nil => simp [alookup] at h
  | cons q rest ih =>
    obtain ⟨a, c⟩ := q
    by_cases hak : a = k
    · subst hak
      rw [aset, if_pos rfl, alookup, if_pos rfl]
    · rw [alookup, if_neg hak] at h
      rw [aset, if_neg hak, alookup, if_neg hak]
      exact ih h

/-- Helper: an absent key defers lookup to the appended tail. -/
theorem alookup_append_of_none {α β : Type} [DecidableEq α] (k : α) (l l2 : List (α × β))
    (h : alookup k l = none) : alookup k (l ++ l2) = alookup k l2 := by
  induction l with
  | nil => simp
  | cons q rest ih =>
    obtain ⟨a, c⟩ := q
    by_cases hak : a = k
    · subst hak
      rw [alookup, if_pos rfl] at h
      cases h
    · rw [alookup, if_neg hak] at h
      rw [List.cons_append, alookup, if_neg hak]
      exact ih h

/-- Helper: option handling never changes the shot count of the symbol
result it is given. -/
theorem add_result_option_c_nshots (cfg : Config) (s : SymbolResult) (val : Option String) :
    (add_result_option_c cfg s val).1.nshots = s.nshots := by
  unfold add_result_option_c
  cases val with
  | none => rfl
  | some v =>
    cases s.options with
    | none => rfl
    | some os =>
      simp only []
      split
      · split <;> rfl
      · rfl

/-- Helper: the repeat-hit option step never decreases the shot count. -/
theorem optionStep_nshots (cfg : Config) (s : SymbolResult) (opt : Option String) :
    s.nshots ≤ (optionStep cfg s opt).nshots := by
  unfold optionStep
  cases opt with
  | none =>
    rw [add_result_option_c_nshots]
    exact Nat.le_succ _
  | some o =>
    cases hop : s.options with
    | none =>
      simp only []
      rw [add_result_option_c_nshots]
      exact Nat.le_succ _
    | some os =>
      simp only []
      split
      · exact Nat.le_succ _
      · rw [add_result_option_c_nshots]

/-- Helper: the repeat-hit branch writes its returned symbol result back
under the inserted key, never decreases the shot count, and leaves the
positive/negative ledgers untouched. -/
theorem insertRepeat_shape (cfg : Config) (mres : MetricResult) (sdef : Option SymbolDef)
    (symbol : String) (fs : ℚ) (opt : Option String) (sflag : Bool) (s : SymbolResult) :
    (insertRepeat cfg mres sdef symbol fs opt sflag s).1.symbols =
      aset symbol (insertRepeat cfg mres sdef symbol fs opt sflag s).2 mres.symbols ∧
    s.nshots ≤ (insertRepeat cfg mres sdef symbol fs opt sflag s).2.nshots ∧
    (insertRepeat cfg mres sdef symbol fs opt sflag s).1.npositive = mres.npositive ∧
    (insertRepeat cfg mres sdef symbol fs opt sflag s).1.nnegative = mres.nnegative ∧
    (insertRepeat cfg mres sdef symbol fs opt sflag s).1.positive_score = mres.positive_score ∧
    (insertRepeat cfg mres sdef symbol fs opt sflag s).1.negative_score = mres.negative_score := by
  have hns := optionStep_nshots cfg s opt
  simp only [insertRepeat]
  split
  · exact ⟨rfl, hns, rfl, rfl, rfl, rfl⟩
  · split
    · exact ⟨rfl, hns, rfl, rfl, rfl, rfl⟩
    · split <;> exact ⟨rfl, hns, rfl, rfl, rfl, rfl⟩

/-- Helper: the first-hit branch appends its returned symbol result under
the inserted key with exactly one shot. -/
theorem insertFirst_shape (cfg : Config) (mres : MetricResult) (sdef : Option SymbolDef)
    (symbol : String) (fs : ℚ) (opt : Option String) :
    (insertFirst cfg mres sdef symbol fs opt).1.symbols =
      mres.symbols ++ [(symbol, (insertFirst cfg mres sdef symbol fs opt).2)] ∧
    (insertFirst cfg mres sdef symbol fs opt).2.nshots = 1 := by
  simp only [insertFirst]
  split
  · constructor
    · rfl
    · rw [add_result_option_c_nshots]
  · constructor
    · rfl
    · rw [add_result_option_c_nshots]

/-- Helper for C9 over the inner insertion: after any insert into a state
whose entries all have at least one shot, looking the inserted symbol up
finds exactly the returned symbol result, which has at least one shot. -/
theorem insert_metric_result_find (cfg : Config) (settings : Option (List (String × ℚ)))
    (mres : MetricResult) (symbol : String) (weight : Option ℚ) (opt : Option String)
    (fl : InsertFlags) (hinv : ∀ p ∈ mres.symbols, 1 ≤ p.2.nshots) :
    rspamd_task_find_symbol_result
        (insert_metric_result cfg settings mres symbol weight opt fl).1 symbol =
      some (insert_metric_result cfg settings mres symbol weight opt fl).2 ∧
    1 ≤ (insert_metric_result cfg settings mres symbol weight opt fl).2.nshots := by
  cases hs : alookup symbol mres.symbols with
  | some s0 =>
    have heq : insert_metric_result cfg settings mres symbol weight opt fl =
        insertRepeat cfg
          { mres with sym_groups := ensureGroups mres.sym_groups (symbolGroups cfg symbol) }
          (alookup symbol cfg.symbols) symbol
          (effectiveScore cfg settings symbol (sanitizeWeight weight) fl.enforce)
          opt fl.single s0 := by
      simp only [insert_metric_result, hs]
    obtain ⟨hsym, hns, _⟩ := insertRepeat_shape cfg
      { mres with sym_groups := ensureGroups mres.sym_groups (symbolGroups cfg symbol) }
      (alookup symbol cfg.symbols) symbol
      (effectiveScore cfg settings symbol (sanitizeWeight weight) fl.enforce)
      opt fl.single s0
    rw [heq]
    constructor
    · unfold rspamd_task_find_symbol_result
      rw [hsym]
      exact alookup_aset_self symbol _ mres.symbols s0 hs
    · have h0 : 1 ≤ s0.nshots := hinv (symbol, s0) (alookup_mem symbol mres.symbols s0 hs)
      exact le_trans h0 hns
  | none =>
    have heq : insert_metric_result cfg settings mres symbol weight opt fl =
        insertFirst cfg
          { mres with sym_groups := ensureGroups mres.sym_groups (symbolGroups cfg symbol) }
          (alookup symbol cfg.symbols) symbol
          (effectiveScore cfg settings symbol (sanitizeWeight weight) fl.enforce) opt := by
      simp only [insert_metric_result, hs]
    obtain ⟨hsym, hns⟩ := insertFirst_shape cfg
      { mres with sym_groups := ensureGroups mres.sym_groups (symbolGroups cfg symbol) }
      (alookup symbol cfg.symbols) symbol
      (effectiveScore cfg settings symbol (sanitizeWeight weight) fl.enforce) opt
    rw [heq]
    constructor
    · unfold rspamd_task_find_symbol_result
      rw [hsym]
      rw [alookup_append_of_none symbol mres.symbols _ hs]
      simp [alookup]
    · rw [hns]

/-- C9: every phase-valid insert call returns a present symbol result,
and afterwards `find_symbol` on that symbol name returns an entry with at
least one shot — even when the score contribution was entirely dropped —
provided every prior entry has at least one shot (which holds in every
reachable state, entries being created only with one shot). -/
theorem C9_insert_present (cfg : Config) (settings : Option (List (String × ℚ)))
    (mres : MetricResult) (symbol : String) (weight : Option ℚ) (opt : Option String)
    (fl : InsertFlags) (hinv : ∀ p ∈ mres.symbols, 1 ≤ p.2.nshots) :
    ∃ s, (rspamd_task_insert_result_full cfg settings false mres symbol weight opt fl).2 = some s ∧
      rspamd_task_find_symbol_result
        (rspamd_task_insert_result_full cfg settings false mres symbol weight opt fl).1 symbol =
        some s ∧
      1 ≤ s.nshots := by
  obtain ⟨h1, h2⟩ := insert_metric_result_find cfg settings mres symbol weight opt fl hinv
  exact ⟨(insert_metric_result cfg settings mres symbol weight opt fl).2, rfl, h1, h2⟩

/-- C9 witness: inserting `B` into the fresh metric result returns a
present symbol result found again by `find_symbol` with one shot. -/
theorem C9_insert_present_witness :
    ∃ s, (rspamd_task_insert_result_full cfgB none false (rspamd_create_metric_result cfgB)
        "B" (some 1) none { single := false, enforce := false }).2 = some s ∧
      rspamd_task_find_symbol_result
        (rspamd_task_insert_result_full cfgB none false (rspamd_create_metric_result cfgB)
          "B" (some 1) none { single := false, enforce := false }).1 "B" = some s ∧
      1 ≤ s.nshots :=
  C9_insert_present cfgB none (rspamd_create_metric_result cfgB) "B" (some 1) none
    { single := false, enforce := false }
    (by intro p hp; simp [rspamd_create_metric_result] at hp)

/-- C10: a repeat-hit insert (the symbol is already present) leaves all
four ledger fields `npositive`, `nnegative`, `positive_score` and
`negative_score` unchanged: the ledgers are updated only on a first
hit. -/
theorem C10_repeat_ledger_frame (cfg : Config) (settings : Option (List (String × ℚ)))
    (mres : MetricResult) (symbol : String) (weight : Option ℚ) (opt : Option String)
    (fl : InsertFlags) (s : SymbolResult)
    (h : alookup symbol mres.symbols = some s) :
    (insert_metric_result cfg settings mres symbol weight opt fl).1.npositive = mres.npositive ∧
    (insert_metric_result cfg settings mres symbol weight opt fl).1.nnegative = mres.nnegative ∧
    (insert_metric_result cfg settings mres symbol weight opt fl).1.positive_score =
      mres.positive_score ∧
    (insert_metric_result cfg settings mres symbol weight opt fl).1.negative_score =
      mres.negative_score := by
  have heq : insert_metric_result cfg settings mres symbol weight opt fl =
      insertRepeat cfg
        { mres with sym_groups := ensureGroups mres.sym_groups (symbolGroups cfg symbol) }
        (alookup symbol cfg.symbols) symbol
        (effectiveScore cfg settings symbol (sanitizeWeight weight) fl.enforce)
        opt fl.single s := by
    simp only [insert_metric_result, h]
  obtain ⟨_, _, h3, h4, h5, h6⟩ := insertRepeat_shape cfg
    { mres with sym_groups := ensureGroups mres.sym_groups (symbolGroups cfg symbol) }
    (alookup symbol cfg.symbols) symbol
    (effectiveScore cfg settings symbol (sanitizeWeight weight) fl.enforce)
    opt fl.single s
  rw [heq]
  exact ⟨h3, h4, h5, h6⟩

/-- A metric result that already holds a hit of symbol `A`, for the C10
witness. -/
def mresW10 : MetricResult :=
  { rspamd_create_metric_result cfg0 with
      symbols := [("A", { name := "A", sym := none, score := 1, nshots := 1,
                          options := none, opts_head := [] })] }

/-- C10 witness: a repeat-hit insert of `A` into `mresW10` leaves all four
ledger fields unchanged. -/
theorem C10_repeat_ledger_frame_witness :
    (insert_metric_result cfg0 none mresW10 "A" (some 1) none
        { single := false, enforce := false }).1.npositive = mresW10.npositive ∧
    (insert_metric_result cfg0 none mresW10 "A" (some 1) none
        { single := false, enforce := false }).1.nnegative = mresW10.nnegative ∧
    (insert_metric_result cfg0 none mresW10 "A" (some 1) none
        { single := false, enforce := false }).1.positive_score = mresW10.positive_score ∧
    (insert_metric_result cfg0 none mresW10 "A" (some 1) none
        { single := false, enforce := false }).1.negative_score = mresW10.negative_score :=
  C10_repeat_ledger_frame cfg0 none mresW10 "A" (some 1) none
    { single := false, enforce := false } _ rfl

/-- The group-cap invariant: every group entry with a positive cap is
bounded by its cap. -/
def GroupInv (sg : List (Group × ℚ)) : Prop :=
  ∀ p ∈ sg, 0 < p.1.max_score → p.2 ≤ p.1.max_score

/-- Helper: a clamped (non-dropped) contribution never pushes a capped
group past its cap. -/
theorem check_group_bound (gr : Group) (gsc w cd : ℚ)
    (h : rspamd_check_group_score gr gsc w = some cd)
    (hmax : 0 < gr.max_score) (hle : gsc ≤ gr.max_score) :
    gsc + cd ≤ gr.max_score := by
  unfold rspamd_check_group_score at h
  split at h
  · rename_i hcond
    split at h
    · cases h
    · rename_i hover
      split at h
      · injection h with h1
        subst h1
        linarith
      · rename_i hfits
        injection h with h1
        subst h1
        linarith [le_of_not_lt hfits]
  · rename_i hcond
    injection h with h1
    subst h1
    have hw : w ≤ 0 := by
      by_contra hw
      exact hcond ⟨hmax, lt_of_not_le hw⟩
    linarith

/-- Helper: the group-cap loop preserves the invariant (each group
receives only its own clamped contribution). -/
theorem applyGroupScores_inv (groups : List Group) :
    ∀ (sg : List (Group × ℚ)) (w : ℚ), GroupInv sg →
      GroupInv (applyGroupScores groups sg w).1 := by
  induction groups with
  | nil => exact fun sg w h => h
  | cons gr rest ih =>
    intro sg w h
    simp only [applyGroupScores]
    cases hc : rspamd_check_group_score gr ((alookup gr sg).getD 0) w with
    | none => exact h
    | some cd =>
      apply ih
      intro p hp hmaxp
      rcases mem_aset gr _ sg p hp with hold | hnew
      · exact h p hold hmaxp
      · rw [hnew]
        rw [hnew] at hmaxp
        simp only at hmaxp ⊢
        have hle : (alookup gr sg).getD 0 ≤ gr.max_score := by
          cases halo : alookup gr sg with
          | none => simpa using le_of_lt hmaxp
          | some b =>
            simp only [halo, Option.getD_some]
            exact h (gr, b) (alookup_mem gr sg b halo) hmaxp
        exact check_group_bound gr _ w cd hc hmaxp hle

/-- Helper: the optional-definition wrapper preserves the invariant. -/
theorem applyGroupScoresOpt_inv (sdef : Option SymbolDef) (w : ℚ) (sg : List (Group × ℚ))
    (h : GroupInv sg) : GroupInv (applyGroupScoresOpt sdef w sg).1 := by
  cases sdef with
  | none => exact h
  | some d => exact applyGroupScores_inv d.groups sg w h

/-- Helper: creating zero-initialized group entries preserves the
invariant. -/
theorem ensureGroups_inv (groups : List Group) :
    ∀ sg, GroupInv sg → GroupInv (ensureGroups sg groups) := by
  induction groups with
  | nil => exact fun sg h => h
  | cons gr rest ih =>
    intro sg h
    simp only [ensureGroups]
    apply ih
    split
    · exact h
    · intro p hp hmaxp
      rcases List.mem_append.mp hp with h1 | h1
      · exact h p h1 hmaxp
      · simp only [List.mem_singleton] at h1
        rw [h1]
        rw [h1] at hmaxp
        simpa using le_of_lt hmaxp

/-- Helper: the repeat-hit branch preserves the group-cap invariant. -/
theorem insertRepeat_groupInv (cfg : Config) (mres : MetricResult) (sdef : Option SymbolDef)
    (symbol : String) (fs : ℚ) (opt : Option String) (sflag : Bool) (s : SymbolResult)
    (h : GroupInv mres.sym_groups) :
    GroupInv (insertRepeat cfg mres sdef symbol fs opt sflag s).1.sym_groups := by
  simp only [insertRepeat]
  split
  · exact h
  · split
    · exact applyGroupScoresOpt_inv _ _ _ h
    · split <;> exact applyGroupScoresOpt_inv _ _ _ h

/-- Helper: the first-hit branch preserves the group-cap invariant. -/
theorem insertFirst_groupInv (cfg : Config) (mres : MetricResult) (sdef : Option SymbolDef)
    (symbol : String) (fs : ℚ) (opt : Option String)
    (h : GroupInv mres.sym_groups) :
    GroupInv (insertFirst cfg mres sdef symbol fs opt).1.sym_groups := by
  simp only [insertFirst]
  split
  · exact applyGroupScoresOpt_inv _ _ _ h
  · have hinner : GroupInv (applyGroupScoresOpt sdef
        (growFactorApply mres.grow_factor cfg.grow_factor fs).1 mres.sym_groups).1 :=
      applyGroupScoresOpt_inv _ _ _ h
    simp only [firstLedger]
    split
    · exact hinner
    · split
      · exact hinner
      · exact hinner

/-- Helper: a whole insertion preserves the group-cap invariant. -/
theorem insert_metric_result_groupInv (cfg : Config) (settings : Option (List (String × ℚ)))
    (mres : MetricResult) (symbol : String) (weight : Option ℚ) (opt : Option String)
    (fl : InsertFlags) (h : GroupInv mres.sym_groups) :
    GroupInv (insert_metric_result cfg settings mres symbol weight opt fl).1.sym_groups := by
  have h1 : GroupInv (ensureGroups mres.sym_groups (symbolGroups cfg symbol)) :=
    ensureGroups_inv (symbolGroups cfg symbol) mres.sym_groups h
  simp only [insert_metric_result]
  cases hs : alookup symbol mres.symbols with
  | some s0 => exact insertRepeat_groupInv cfg _ _ symbol _ opt fl.single s0 h1
  | none => exact insertFirst_groupInv cfg _ _ symbol _ opt h1

/-- Helper: any sequence of phase-valid inserts preserves the group-cap
invariant. -/
theorem runInserts_groupInv (cfg : Config) (settings : Option (List (String × ℚ)))
    (calls : List InsertCall) :
    ∀ mres, GroupInv mres.sym_groups →
      GroupInv (runInserts cfg settings mres calls).sym_groups := by
  induction calls with
  | nil => exact fun mres h => h
  | cons c rest ih =>
    intro mres h
    simp only [runInserts]
    apply ih
    exact insert_metric_result_groupInv cfg settings mres c.symbol c.weight c.opt c.flags h

/-- C2: for every group with a strictly positive configured `max_score`,
after any sequence of phase-valid insert calls starting from the fresh
metric result, the accumulated group score never exceeds `max_score`
(proved exactly, which implies the epsilon-relaxed claim). -/
theorem C2_group_cap (cfg : Config) (settings : Option (List (String × ℚ)))
    (calls : List InsertCall) (g : Group) (q : ℚ)
    (hmem : (g, q) ∈ (runInserts cfg settings (rspamd_create_metric_result cfg)
      calls).sym_groups)
    (hmax : 0 < g.max_score) : q ≤ g.max_score := by
  have h0 : GroupInv (rspamd_create_metric_result cfg).sym_groups := by
    intro p hp
    simp [rspamd_create_metric_result] at hp
  exact runInserts_groupInv cfg settings calls _ h0 (g, q) hmem hmax

/-- C2 witness: inserting symbol `C` (weight 5, group cap 7) once yields
group score `5 ≤ 7`. -/
theorem C2_group_cap_witness :
    ((gC, (5 : ℚ)) ∈ (runInserts cfgC none (rspamd_create_metric_result cfgC)
        [callC]).sym_groups) ∧
    (0 : ℚ) < gC.max_score ∧ (5 : ℚ) ≤ gC.max_score := by
  have hmem : (gC, (5 : ℚ)) ∈ (runInserts cfgC none (rspamd_create_metric_result cfgC)
      [callC]).sym_groups := by
    norm_num [runInserts, rspamd_task_insert_result_full, insert_metric_result,
      rspamd_create_metric_result, cfgC, callC, gC, sanitizeWeight, symbolGroups, ensureGroups,
      baseScore, settingsCorr, effectiveScore, growFactorApply, applyGroupScores,
      applyGroupScoresOpt, rspamd_check_group_score, repeatMaxShots, repeatSingle, optionStep,
      repeatDiff, insertRepeat, insertFirst, firstLedger, add_result_option_c, one_param_set,
      alookup, aset, DBL_EPSILON]
  exact ⟨hmem, by norm_num [gC], C2_group_cap cfgC none [callC] gC 5 hmem (by norm_num [gC])⟩

/-- Cardinality of the khash option set of a symbol result (`kh_size`,
`0` when no set exists yet). -/
def optSetSize (s : SymbolResult) : Nat := (s.options.getD []).length

/-- Healthy option state: the display list mirrors the lookup set and the
set has no duplicates. -/
def OptState (s : SymbolResult) : Prop :=
  s.opts_head = s.options.getD [] ∧ (s.options.getD []).Nodup

/-- One `add_option` call on a present symbol result. -/
def addOptCall (cfg : Config) (s : SymbolResult) (v : Option String) : SymbolResult :=
  (add_result_option_c cfg s v).1

/-- A sequence of `add_option` calls on a present symbol result. -/
def runOpts (cfg : Config) : SymbolResult → List (Option String) → SymbolResult
  | s, [] => s
  | s, v :: rest => runOpts cfg (addOptCall cfg s v) rest

/-- A sequence of `add_option` calls none of which replaces an existing
option set: each call with a present option either finds no set yet, or
finds a non-one-parameter symbol whose set is still below
`default_max_shots`. -/
def SafeCalls (cfg : Config) : SymbolResult → List (Option String) → Prop
  | _, [] => True
  | s, v :: rest =>
    (v.isSome = true →
      (s.options = none ∨
       (one_param_set s = false ∧ optSetSize s < cfg.default_max_shots))) ∧
    SafeCalls cfg (addOptCall cfg s v) rest

/-- Helper: one set-replacement-free `add_option` call preserves the
healthy option state. -/
theorem addOptCall_optState (cfg : Config) (s : SymbolResult) (v : Option String)
    (h : OptState s)
    (hsafe : v.isSome = true →
      (s.options = none ∨
       (one_param_set s = false ∧ optSetSize s < cfg.default_max_shots))) :
    OptState (addOptCall cfg s v) := by
  obtain ⟨h1, h2⟩ := h
  cases v with
  | none => exact ⟨h1, h2⟩
  | some x =>
    rcases hsafe rfl with hnone | ⟨hop, hsize⟩
    · unfold addOptCall add_result_option_c
      rw [hnone] at h1 ⊢
      simp only [Option.getD_none] at h1
      constructor
      · simp [h1]
      · simp
    · cases hos : s.options with
      | none =>
        unfold addOptCall add_result_option_c
        rw [hos]
        rw [hos] at h1
        simp only [Option.getD_none] at h1
        constructor
        · simp [h1]
        · simp
      | some os =>
        rw [hos] at h1 h2
        simp only [Option.getD_some] at h1 h2
        unfold addOptCall add_result_option_c
        rw [hos]
        simp only []
        rw [if_pos ⟨hop, by rw [optSetSize, hos] at hsize; simpa using hsize⟩]
        split
        · exact ⟨by rw [hos]; simpa using h1, by rw [hos]; simpa using h2⟩
        · rename_i hmem
          constructor
          · simp only [Option.getD_some]
            rw [h1]
          · simp only [Option.getD_some]
            rw [List.nodup_append]
            refine ⟨h2, List.nodup_singleton x, ?_⟩
            intro a ha hxa
            simp only [List.mem_singleton] at hxa
            subst hxa
            exact hmem ha

/-- Helper: a whole set-replacement-free sequence preserves the healthy
option state. -/
theorem runOpts_optState (cfg : Config) (vals : List (Option String)) :
    ∀ s, OptState s → SafeCalls cfg s vals → OptState (runOpts cfg s vals) := by
  induction vals with
  | nil => exact fun s h _ => h
  | cons v rest ih =>
    intro s h hsafe
    obtain ⟨h1, h2⟩ := hsafe
    exact ih _ (addOptCall_optState cfg s v h h1) h2

/-- C5 amended: for every symbol result in a healthy state, after any
sequence of `add_option` calls none of which replaces an existing option
set (each call with a present option either finds no set yet, or a
non-one-parameter symbol with a set below `default_max_shots`), the
display list has no duplicates and its length equals the cardinality of
the lookup set.  The unamended claim fails when a set is replaced: the
display list keeps its old nodes (see the counterexample). -/
theorem C5_dedup_safe (cfg : Config) (s : SymbolResult) (vals : List (Option String))
    (h : OptState s) (hsafe : SafeCalls cfg s vals) :
    (runOpts cfg s vals).opts_head.Nodup ∧
    (runOpts cfg s vals).opts_head.length = optSetSize (runOpts cfg s vals) := by
  obtain ⟨h1, h2⟩ := runOpts_optState cfg vals s h hsafe
  rw [h1]
  exact ⟨h2, rfl⟩

/-- C5 witness: three safe `add_option` calls (`x`, `y`, duplicate `x`)
on the fresh result `s5` leave a duplicate-free display list whose
length matches the set cardinality. -/
theorem C5_dedup_safe_witness :
    OptState s5 ∧ SafeCalls cfg0 s5 [some "x", some "y", some "x"] ∧
    (runOpts cfg0 s5 [some "x", some "y", some "x"]).opts_head.Nodup ∧
    (runOpts cfg0 s5 [some "x", some "y", some "x"]).opts_head.length =
      optSetSize (runOpts cfg0 s5 [some "x", some "y", some "x"]) := by
  have h : OptState s5 := by
    constructor <;> simp [s5]
  have hsafe : SafeCalls cfg0 s5 [some "x", some "y", some "x"] := by
    simp [SafeCalls, addOptCall, add_result_option_c, s5, cfg0, one_param_set, optSetSize,
      ne_y_x]
  exact ⟨h, hsafe, C5_dedup_safe cfg0 s5 [some "x", some "y", some "x"] h hsafe⟩

/-- Helper: the repeat-hit branch leaves `grow_factor` untouched when the
adjusted diff is zero or the group loop drops the contribution. -/
theorem insertRepeat_grow_factor (cfg : Config) (mres : MetricResult) (sdef : Option SymbolDef)
    (symbol : String) (fs : ℚ) (opt : Option String) (sflag : Bool) (s : SymbolResult)
    (h : repeatDiff (repeatSingle cfg sdef sflag s) (optionStep cfg s opt).score fs = 0 ∨
      (applyGroupScoresOpt sdef
        (growFactorApply mres.grow_factor cfg.grow_factor
          (repeatDiff (repeatSingle cfg sdef sflag s) (optionStep cfg s opt).score fs)).1
        mres.sym_groups).2 = none) :
    (insertRepeat cfg mres sdef symbol fs opt sflag s).1.grow_factor = mres.grow_factor := by
  simp only [insertRepeat]
  split
  · rfl
  · rename_i hne
    rcases h with h0 | hdrop
    · exact absurd h0 hne
    · split
      · rfl
      · rename_i heq
        rw [hdrop] at heq
        cases heq

/-- Helper: the first-hit branch leaves `grow_factor` untouched when the
group loop drops the contribution. -/
theorem insertFirst_grow_factor (cfg : Config) (mres : MetricResult) (sdef : Option SymbolDef)
    (symbol : String) (fs : ℚ) (opt : Option String)
    (h : (applyGroupScoresOpt sdef
        (growFactorApply mres.grow_factor cfg.grow_factor fs).1 mres.sym_groups).2 = none) :
    (insertFirst cfg mres sdef symbol fs opt).1.grow_factor = mres.grow_factor := by
  simp only [insertFirst]
  split
  · rfl
  · rename_i heq
    rw [h] at heq
    cases heq

/-- C8 amended: `grow_factor` is not overwritten exactly when no
write-back happens: on a repeat hit whose computed diff is zero, and in
either branch when group clamping drops the contribution as NaN.  The
unamended claim also covered applied negative (and zero first-hit)
contributions, but those DO overwrite `grow_factor` with the local
`next_gf = 1.0` default (see the counterexample). -/
theorem C8_grow_factor_frame (cfg : Config) (settings : Option (List (String × ℚ)))
    (mres : MetricResult) (symbol : String) (weight : Option ℚ) (opt : Option String)
    (fl : InsertFlags) :
    (∀ s, alookup symbol mres.symbols = some s →
      (repeatDiff (repeatSingle cfg (alookup symbol cfg.symbols) fl.single s)
          (optionStep cfg s opt).score
          (effectiveScore cfg settings symbol (sanitizeWeight weight) fl.enforce) = 0 ∨
        (applyGroupScoresOpt (alookup symbol cfg.symbols)
          (growFactorApply mres.grow_factor cfg.grow_factor
            (repeatDiff (repeatSingle cfg (alookup symbol cfg.symbols) fl.single s)
              (optionStep cfg s opt).score
              (effectiveScore cfg settings symbol (sanitizeWeight weight) fl.enforce))).1
          (ensureGroups mres.sym_groups (symbolGroups cfg symbol))).2 = none) →
      (insert_metric_result cfg settings mres symbol weight opt fl).1.grow_factor =
        mres.grow_factor) ∧
    (alookup symbol mres.symbols = none →
      (applyGroupScoresOpt (alookup symbol cfg.symbols)
        (growFactorApply mres.grow_factor cfg.grow_factor
          (effectiveScore cfg settings symbol (sanitizeWeight weight) fl.enforce)).1
        (ensureGroups mres.sym_groups (symbolGroups cfg symbol))).2 = none →
      (insert_metric_result cfg settings mres symbol weight opt fl).1.grow_factor =
        mres.grow_factor) := by
  constructor
  · intro s hs hcase
    have heq : insert_metric_result cfg settings mres symbol weight opt fl =
        insertRepeat cfg
          { mres with sym_groups := ensureGroups mres.sym_groups (symbolGroups cfg symbol) }
          (alookup symbol cfg.symbols) symbol
          (effectiveScore cfg settings symbol (sanitizeWeight weight) fl.enforce)
          opt fl.single s := by
      simp only [insert_metric_result, hs]
    rw [heq]
    exact insertRepeat_grow_factor cfg _ _ symbol _ opt fl.single s hcase
  · intro hs hdrop
    have heq : insert_metric_result cfg settings mres symbol weight opt fl =
        insertFirst cfg
          { mres with sym_groups := ensureGroups mres.sym_groups (symbolGroups cfg symbol) }
          (alookup symbol cfg.symbols) symbol
          (effectiveScore cfg settings symbol (sanitizeWeight weight) fl.enforce) opt := by
      simp only [insert_metric_result, hs]
    rw [heq]
    exact insertFirst_grow_factor cfg _ _ symbol _ opt hdrop

/-- C8 witness: a single-shot repeat hit of `A` whose replacement diff is
zero leaves `grow_factor` unchanged. -/
theorem C8_grow_factor_frame_witness :
    (insert_metric_result cfg0 none mresW10 "A" (some 1) none
        { single := true, enforce := true }).1.grow_factor = mresW10.grow_factor :=
  (C8_grow_factor_frame cfg0 none mresW10 "A" (some 1) none
      { single := true, enforce := true }).1
    { name := "A", sym := none, score := 1, nshots := 1, options := none, opts_head := [] }
    rfl
    (Or.inl (by norm_num [repeatDiff, repeatSingle, repeatMaxShots, optionStep,
      add_result_option_c, effectiveScore, settingsCorr, baseScore, sanitizeWeight,
      alookup, cfg0]))

end RspamdFilter
